import Mathlib

/-!
Verification of the kokos-documentor PDF viewer (a browser-based PDF document
viewer). The definitions below are shallow embeddings of the viewer's own
logic, translated from the application source (the `PdfPage`, `PdfTree`,
`App` and `AppContainer` components). External collaborators (the PDF
rendering library, the DOM) are modelled by their inputs and outputs only.

Coordinate values coming from `getBoundingClientRect` and the zoom scale are
modelled as rationals; DOM child indices and page indices as naturals (or
integers where the source can produce `-1` from `indexOf`); JavaScript
strings as lists of UTF-16 code units (`List Nat`).
-/

/-! ## Page visibility tracking (`PdfPage`, `onGlobalScroll`)

The scroll handler reads the page canvas's bounding rectangle and the screen
height `max(document.documentElement.clientHeight, window.innerHeight)`,
classifies the page as visible or not, and on a transition fires one of four
directional callbacks and updates the remembered visibility. -/

/-- Bounding rectangle of a page's canvas, as returned by
`getBoundingClientRect`: only the `top` and `bottom` fields are read. -/
structure DOMRect where
  top : ℚ
  bottom : ℚ

/-- The four directional transition callbacks a `PdfPage` can fire. -/
inductive ScrollTransition
  | exitTop
  | exitBottom
  | enterTop
  | enterBottom
deriving DecidableEq

/-- Classification of a rectangle as not visible: the bottom edge is above the
viewport top (`rect.bottom < 0`) or the top edge is at/below the viewport
bottom (`rect.top >= screenHeight`). -/
def notVisibleRect (rect : DOMRect) (screenHeight : ℚ) : Bool :=
  decide (rect.bottom < 0) || decide (rect.top ≥ screenHeight)

/-- One evaluation of `onGlobalScroll` for a page: given the canvas rectangle,
the screen height and the remembered `wasVisible` flag, returns the new
`wasVisible` flag and the transition callback fired (if any). Mirrors the
body of the scroll handler in `PdfPage`. -/
def onGlobalScroll (rect : DOMRect) (screenHeight : ℚ) (wasVisible : Bool) :
    Bool × Option ScrollTransition :=
  if rect.bottom < 0 ∨ rect.top ≥ screenHeight then
    -- Not visible
    if wasVisible then
      (false, some (if rect.bottom < 0 then ScrollTransition.exitTop else ScrollTransition.exitBottom))
    else
      (false, none)
  else
    -- Visible on screen
    if wasVisible then
      (true, none)
    else
      (true, some (if rect.top < 0 then ScrollTransition.enterTop else ScrollTransition.enterBottom))

/-- Initial visibility presumption of a page: `useState(props.pageIndex < 4)`,
also used to seed the handler's `wasVisible` local. -/
def initialVisible (pageIndex : Nat) : Bool :=
  decide (pageIndex < 4)

/-! ## App shell page tracking (`AppContainer` page event callbacks) -/

/-- A directional transition event fired by the page at index `i`. -/
inductive PageEvent
  | exitTop (i : Nat)
  | exitBottom (i : Nat)
  | enterTop (i : Nat)
  | enterBottom (i : Nat)

/-- Effect of a page transition callback on the `AppContainer`'s tracked
`pageIndex` state: `onExitTop` of page `i` runs `setPageIndex(i + 1)`,
`onEnterTop` of page `i` runs `setPageIndex(i)`, the bottom callbacks only
contain commented-out logging. -/
def appContainerOnPageEvent : PageEvent → Nat → Nat
  | PageEvent.exitTop i, _ => i + 1
  | PageEvent.exitBottom _, p => p
  | PageEvent.enterTop i, _ => i
  | PageEvent.enterBottom _, p => p

/-! ## Zoom gesture (`AppContainer`, wheel handler `onScroll`) -/

/-- Effect of one wheel event on the scale state: with the ctrl key held the
scale is multiplied by `1.05` when `deltaY < 0` and by `0.95` otherwise;
without ctrl the handler does nothing. -/
def appContainerOnWheel (ctrlKey : Bool) (deltaY : ℚ) (scale : ℚ) : ℚ :=
  if ctrlKey then
    if deltaY < 0 then scale * 1.05 else scale * 0.95
  else scale

/-! ## Selection mapping (`AppContainer`, `onMouseUp`) -/

/-- A stored selection `[startPage, startIndex, endPage, endIndex]`. The
components are integers because they are produced by `Array.indexOf`, which
yields `-1` when the element is not found. -/
abbrev MarkedSelection := Int × Int × Int × Int

/-- The data the `onMouseUp` handler reads from the DOM: whether
`window.getSelection()` and its anchor/focus nodes are present, the two
selection offsets, whether each endpoint's grandparent carries the
`text-layer` class, and the page/glyph indices computed by `indexOf`. -/
structure MouseUpEnv where
  hasSelection : Bool
  hasAnchorNode : Bool
  hasFocusNode : Bool
  anchorOffset : Nat
  focusOffset : Nat
  anchorInTextLayer : Bool
  focusInTextLayer : Bool
  anchorPageIndex : Int
  anchorGlyphIndex : Int
  focusPageIndex : Int
  focusGlyphIndex : Int

/-- The `onMouseUp` handler: returns the new stored selection state given the
DOM data and the prior stored selection. Early returns leave the prior state
unchanged; a selection span shorter than 2 clears it; otherwise, if both
endpoints lie in text layers, the computed 4-tuple is stored. -/
def appContainerOnMouseUp (env : MouseUpEnv) (prior : Option MarkedSelection) :
    Option MarkedSelection :=
  if !env.hasSelection || !env.hasAnchorNode || !env.hasFocusNode then
    prior
  else if (env.focusOffset : Int) - (env.anchorOffset : Int) < 2 then
    -- Selection too short
    none
  else if !env.anchorInTextLayer || !env.focusInTextLayer then
    -- Selection is not in text layer
    prior
  else
    some (env.anchorPageIndex, env.anchorGlyphIndex, env.focusPageIndex, env.focusGlyphIndex)

/-! ## Outline click navigation (`AppContainer`, `PdfTree` onClick) -/

/-- The `PdfTree` click handler at the app shell: `getDestination` returns
either nothing (`null`) or a list of destination refs (modelled as opaque
naturals); an absent or empty result is a silent no-op, otherwise the first
ref is resolved to a page index via `getPageIndex`, the tracked page index is
set to it and the page container at that index is scrolled into view.
Returns the new page index and the index of the container scrolled into view
(if any). -/
def pdfTreeOnClick (getPageIndex : Nat → Nat) (dest : Option (List Nat)) (pageIndex : Nat) :
    Nat × Option Nat :=
  match dest with
  | none => (pageIndex, none)
  | some [] => (pageIndex, none)
  | some (r :: _) => (getPageIndex r, some (getPageIndex r))

/-! ## Text-layer selection marking (`PdfPage`, end of `renderText`)

After the text layer is populated, `renderText` walks the glyph elements of
the layer and adds the `marked` class to a sub-range determined by the
stored selection. The glyph elements are modelled by their indices
`0, ..., glyphCount - 1`. -/

/-- Indices of the glyph elements of a page's text layer that receive the
`marked` class, given the stored selection (as non-negative components), the
page's index and the number of glyph elements in the layer. Mirrors the
selection block at the end of `renderText`, including its guard
`startPage == pageIndex || endIndex == pageIndex` and the loop
`for (i = start; i <= end && i < length; i++)`. -/
def renderTextMarks (selection : Option (Nat × Nat × Nat × Nat)) (pageIndex : Nat)
    (glyphCount : Nat) : List Nat :=
  match selection with
  | none => []
  | some (startPage, startIndex, endPage, endIndex) =>
    if startPage = pageIndex ∨ endIndex = pageIndex then
      let start := if startPage = pageIndex then startIndex else 0
      let stop := if endPage = pageIndex then endIndex else 99999
      (List.range glyphCount).filter (fun i => decide (start ≤ i) && decide (i ≤ stop))
    else []

/-! ## Render task lifecycle (`PdfPage`, `renderPage` and its effect)

A small-step model of the cooperative scheduling of `renderPage` invocations
for one page, faithful to the suspension structure of the source:

* `renderPage` first checks the cached page handle; if absent it suspends on
  `document.getPage` and assigns the handle on resumption;
* it then synchronously creates a library render task, records it in
  `tasks.current.renderTask`, and suspends awaiting the task's promise;
* on (uncancelled) completion the recorded task is cleared;
* the effect with dependencies `[props.scale, visible]` runs its cleanup
  (cancelling the recorded task, if any) and then, when visible, starts a
  fresh `renderPage` invocation.

An invocation suspended on `getPage` has not yet recorded any task, so the
cleanup has nothing to cancel for it. -/

/-- A library render task: whether it has been cancelled and whether it has
completed (applied its output to the canvas). -/
structure RenderTask where
  cancelled : Bool
  completed : Bool

/-- State of one page's render lifecycle: whether the page handle is cached,
the task currently recorded in `tasks.current.renderTask` (by id), the
number of `renderPage` invocations suspended on `getPage`, the tasks created
so far (task id = position in the list), and the `visible` flag. -/
structure PageRenderState where
  pageCached : Bool
  recordedTask : Option Nat
  pendingFetches : Nat
  tasks : List RenderTask
  visible : Bool

/-- Mark the task with the given id as cancelled. -/
def cancelAt : List RenderTask → Nat → List RenderTask
  | [], _ => []
  | t :: ts, 0 => { t with cancelled := true } :: ts
  | t :: ts, n + 1 => t :: cancelAt ts n

/-- Mark the task with the given id as completed. -/
def completeAt : List RenderTask → Nat → List RenderTask
  | [], _ => []
  | t :: ts, 0 => { t with completed := true } :: ts
  | t :: ts, n + 1 => t :: completeAt ts n

/-- A task is in flight when it has been created but neither cancelled nor
completed. -/
def anyInFlight (ts : List RenderTask) : Bool :=
  ts.any (fun t => !t.cancelled && !t.completed)

/-- Create a fresh library render task and record it in
`tasks.current.renderTask` (source lines `let renderTask = page.render(...)`
and `tasks.current.renderTask = renderTask`). Also reports whether some
other task for this page was still in flight at that moment — i.e. whether a
new render task began before every in-flight one was cancelled. -/
def startRenderTask (s : PageRenderState) : PageRenderState × Bool :=
  ({ s with tasks := s.tasks ++ [⟨false, false⟩], recordedTask := some s.tasks.length },
   anyInFlight s.tasks)

/-- One scheduler step of the render lifecycle model. -/
inductive RenderStep
  /-- The effect on `[props.scale, visible]` fires (mount, a scale change, or
  a visibility change to the given flag): cleanup cancels the recorded task
  if present, then, when visible, a new `renderPage` invocation runs up to
  its first suspension point. -/
  | effect (visible : Bool)
  /-- A pending `getPage` call resolves: the suspended invocation caches the
  handle, creates the render task and records it. -/
  | resumeFetch
  /-- The render task with the given id completes: its output is applied to
  the canvas and the recorded task is cleared. Only possible for a task that
  is neither cancelled nor already completed. -/
  | completeTask (t : Nat)

/-- Execute one step. Returns `none` when the step is not enabled in the
given state; otherwise the new state together with a flag reporting whether
this step started a render task while another render task was still in
flight and uncancelled. -/
def renderStep (s : PageRenderState) : RenderStep → Option (PageRenderState × Bool)
  | RenderStep.effect vis =>
    let s1 :=
      match s.recordedTask with
      | some t => { s with tasks := cancelAt s.tasks t }
      | none => s
    let s2 := { s1 with visible := vis }
    if vis then
      if s2.pageCached then
        some (startRenderTask s2)
      else
        some ({ s2 with pendingFetches := s2.pendingFetches + 1 }, false)
    else
      some (s2, false)
  | RenderStep.resumeFetch =>
    if s.pendingFetches = 0 then none
    else some (startRenderTask { s with pendingFetches := s.pendingFetches - 1, pageCached := true })
  | RenderStep.completeTask t =>
    match s.tasks.get? t with
    | none => none
    | some task =>
      if task.cancelled || task.completed then none
      else some ({ s with tasks := completeAt s.tasks t, recordedTask := none }, false)

/-- Run a list of steps from a state; the returned flag is true when some
step started a render task while another was in flight and uncancelled. -/
def renderRun (s : PageRenderState) : List RenderStep → Option (PageRenderState × Bool)
  | [] => some (s, false)
  | st :: rest =>
    match renderStep s st with
    | none => none
    | some (s1, v1) =>
      match renderRun s1 rest with
      | none => none
      | some (s2, v2) => some (s2, v1 || v2)

/-- State of a freshly mounted `PdfPage` before its effects run: no page
handle cached, no task recorded, nothing pending. -/
def initialRenderState : PageRenderState :=
  { pageCached := false, recordedTask := none, pendingFetches := 0, tasks := [], visible := false }

/-! ## Claims about the visibility tracker -/

/-- C1: on every scroll evaluation, a page is classified not-visible exactly
when `rect.bottom < 0` or `rect.top ≥ screenHeight`, and visible otherwise;
on a visible-to-not-visible transition the exit direction is top when
`rect.bottom < 0` and bottom otherwise; on a not-visible-to-visible
transition the enter direction is top when `rect.top < 0` and bottom
otherwise. -/
theorem C1_visibility_classification (rect : DOMRect) (screenHeight : ℚ) (wasVisible : Bool) :
    ((onGlobalScroll rect screenHeight wasVisible).1 = false ↔
      (rect.bottom < 0 ∨ rect.top ≥ screenHeight))
    ∧ (wasVisible = true → rect.bottom < 0 ∨ rect.top ≥ screenHeight →
        (onGlobalScroll rect screenHeight wasVisible).2 =
          some (if rect.bottom < 0 then ScrollTransition.exitTop else ScrollTransition.exitBottom))
    ∧ (wasVisible = false → ¬(rect.bottom < 0 ∨ rect.top ≥ screenHeight) →
        (onGlobalScroll rect screenHeight wasVisible).2 =
          some (if rect.top < 0 then ScrollTransition.enterTop else ScrollTransition.enterBottom)) := by
  unfold onGlobalScroll
  by_cases hnv : rect.bottom < 0 ∨ rect.top ≥ screenHeight
  · cases wasVisible <;> simp [hnv]
  · cases wasVisible <;> simp [hnv]

/-- Witness for C1 at concrete rectangles: a previously visible page whose
rectangle lies above the viewport exits top; a previously hidden page whose
top edge is above the viewport while its bottom is inside enters top. -/
theorem C1_visibility_classification_witness :
    (onGlobalScroll ⟨-10, -3⟩ 100 true).2 = some ScrollTransition.exitTop
    ∧ (onGlobalScroll ⟨-5, 50⟩ 100 false).2 = some ScrollTransition.enterTop := by
  constructor
  · have h := (C1_visibility_classification ⟨-10, -3⟩ 100 true).2.1 rfl (Or.inl (by norm_num))
    rw [if_pos (by norm_num : (-3 : ℚ) < 0)] at h
    exact h
  · have h := (C1_visibility_classification ⟨-5, 50⟩ 100 false).2.2 rfl (by norm_num)
    rw [if_pos (by norm_num : (-5 : ℚ) < 0)] at h
    exact h

/-- C8: at mount a page with index < 4 is presumed visible and a page with
index ≥ 4 is presumed hidden, with no transition event; the first evaluation
of the scroll handler emits a transition exactly when the computed
visibility differs from this presumption. -/
theorem C8_initial_visibility (i : Nat) (rect : DOMRect) (screenHeight : ℚ) :
    (i < 4 → initialVisible i = true)
    ∧ (4 ≤ i → initialVisible i = false)
    ∧ ((onGlobalScroll rect screenHeight (initialVisible i)).2 ≠ none ↔
        (!notVisibleRect rect screenHeight) ≠ initialVisible i) := by
  refine ⟨fun h => by simp [initialVisible, h], fun h => by simp [initialVisible]; omega, ?_⟩
  have hb : notVisibleRect rect screenHeight =
      decide (rect.bottom < 0 ∨ rect.top ≥ screenHeight) := by
    unfold notVisibleRect
    by_cases h1 : rect.bottom < 0 <;> by_cases h2 : rect.top ≥ screenHeight <;>
      simp [h1, h2]
  rw [hb]
  unfold onGlobalScroll
  by_cases hnv : rect.bottom < 0 ∨ rect.top ≥ screenHeight
  · cases hi : initialVisible i <;> simp [hnv, hi]
  · cases hi : initialVisible i <;> simp [hnv, hi]

/-- Witness for C8: page 2 starts presumed visible, page 7 presumed hidden,
and for page 7 the first evaluation at a rectangle inside the viewport emits
a transition. -/
theorem C8_initial_visibility_witness :
    initialVisible 2 = true ∧ initialVisible 7 = false
    ∧ (onGlobalScroll ⟨0, 10⟩ 100 (initialVisible 7)).2 ≠ none := by
  refine ⟨(C8_initial_visibility 2 ⟨0, 10⟩ 100).1 (by decide),
          (C8_initial_visibility 7 ⟨0, 10⟩ 100).2.1 (by decide),
          ((C8_initial_visibility 7 ⟨0, 10⟩ 100).2.2).mpr ?_⟩
  norm_num [notVisibleRect, initialVisible]

/-! ## Claims about the app shell -/

/-- C4: firing enter-top of page `i` sets the tracked current page index to
`i`, and firing exit-top of page `i` sets it to `i + 1`, regardless of its
prior value. -/
theorem C4_page_index_tracking (i prior : Nat) :
    appContainerOnPageEvent (PageEvent.enterTop i) prior = i
    ∧ appContainerOnPageEvent (PageEvent.exitTop i) prior = i + 1 :=
  ⟨rfl, rfl⟩

/-- C9: a ctrl+wheel event multiplies the scale by 1.05 when the wheel delta
is negative and by 0.95 otherwise; a wheel event without ctrl leaves the
scale unchanged; two consecutive ctrl+scroll-up ticks from scale 1.2 yield
exactly 1.2 * 1.05 * 1.05. -/
theorem C9_zoom_step (deltaY scale : ℚ) :
    (deltaY < 0 → appContainerOnWheel true deltaY scale = scale * 1.05)
    ∧ (¬ deltaY < 0 → appContainerOnWheel true deltaY scale = scale * 0.95)
    ∧ appContainerOnWheel false deltaY scale = scale
    ∧ appContainerOnWheel true (-1) (appContainerOnWheel true (-1) 1.2) = 1.2 * 1.05 * 1.05 := by
  refine ⟨fun h => by simp [appContainerOnWheel, h],
          fun h => by simp [appContainerOnWheel, h], rfl, ?_⟩
  norm_num [appContainerOnWheel]

/-- Witness for C9 at concrete wheel deltas. -/
theorem C9_zoom_step_witness :
    appContainerOnWheel true (-3) 2 = 2 * 1.05
    ∧ appContainerOnWheel true 4 2 = 2 * 0.95 :=
  ⟨(C9_zoom_step (-3) 2).1 (by norm_num), (C9_zoom_step 4 2).2.1 (by norm_num)⟩

/-- C6: a mouseup-handled native selection whose endpoints are present and
satisfy `|focusOffset - anchorOffset| < 2` always clears the stored
selection. -/
theorem C6_short_selection_clears (env : MouseUpEnv) (prior : Option MarkedSelection)
    (hsel : env.hasSelection = true) (hanchor : env.hasAnchorNode = true)
    (hfocus : env.hasFocusNode = true)
    (hshort : |(env.focusOffset : Int) - (env.anchorOffset : Int)| < 2) :
    appContainerOnMouseUp env prior = none := by
  have h2 : (env.focusOffset : Int) - (env.anchorOffset : Int) < 2 := lt_of_abs_lt hshort
  unfold appContainerOnMouseUp
  rw [hsel, hanchor, hfocus]
  simp [h2]

/-- Witness for C6: a zero-length selection inside the text layer clears a
previously stored selection. -/
theorem C6_short_selection_clears_witness :
    appContainerOnMouseUp
      { hasSelection := true, hasAnchorNode := true, hasFocusNode := true,
        anchorOffset := 5, focusOffset := 5, anchorInTextLayer := true,
        focusInTextLayer := true, anchorPageIndex := 0, anchorGlyphIndex := 0,
        focusPageIndex := 0, focusGlyphIndex := 0 }
      (some (1, 2, 3, 4)) = none :=
  C6_short_selection_clears _ _ rfl rfl rfl (by decide)

/-- C10: in the mouseup handler the degenerate-length check runs before the
text-layer containment check: with both endpoints present, a span with
`focusOffset - anchorOffset < 2` clears the stored selection even when
neither endpoint is inside a text layer, while the containment check leaves
the prior selection unchanged only for spans that pass the length check. -/
theorem C10_length_check_precedes_containment (env : MouseUpEnv)
    (prior : Option MarkedSelection)
    (hsel : env.hasSelection = true) (hanchor : env.hasAnchorNode = true)
    (hfocus : env.hasFocusNode = true) :
    ((env.focusOffset : Int) - (env.anchorOffset : Int) < 2 →
      appContainerOnMouseUp env prior = none)
    ∧ (¬ (env.focusOffset : Int) - (env.anchorOffset : Int) < 2 →
        (!env.anchorInTextLayer || !env.focusInTextLayer) = true →
        appContainerOnMouseUp env prior = prior) := by
  unfold appContainerOnMouseUp
  rw [hsel, hanchor, hfocus]
  constructor
  · intro h
    simp [h]
  · intro h hc
    simp [h, hc]

/-- Witness for C10: a backward (negative-span) selection entirely outside
the text layer still clears the stored selection, while a long selection
outside the text layer leaves it unchanged. -/
theorem C10_length_check_precedes_containment_witness :
    appContainerOnMouseUp
      { hasSelection := true, hasAnchorNode := true, hasFocusNode := true,
        anchorOffset := 9, focusOffset := 0, anchorInTextLayer := false,
        focusInTextLayer := false, anchorPageIndex := 0, anchorGlyphIndex := 0,
        focusPageIndex := 0, focusGlyphIndex := 0 }
      (some (1, 2, 3, 4)) = none
    ∧ appContainerOnMouseUp
      { hasSelection := true, hasAnchorNode := true, hasFocusNode := true,
        anchorOffset := 0, focusOffset := 9, anchorInTextLayer := false,
        focusInTextLayer := true, anchorPageIndex := 0, anchorGlyphIndex := 0,
        focusPageIndex := 0, focusGlyphIndex := 0 }
      (some (1, 2, 3, 4)) = some (1, 2, 3, 4) :=
  ⟨(C10_length_check_precedes_containment _ _ rfl rfl rfl).1 (by decide),
   (C10_length_check_precedes_containment _ _ rfl rfl rfl).2 (by decide) (by decide)⟩

/-- C7: an outline click whose destination resolves to a non-empty ref list
sets the tracked page index to the resolved index `k` and scrolls the page
container at index `k` into view; a missing or empty destination leaves the
page index unchanged and scrolls nothing. -/
theorem C7_outline_click_navigation (getPageIndex : Nat → Nat) (dest : Option (List Nat))
    (p : Nat) :
    (∀ r rest, dest = some (r :: rest) →
      pdfTreeOnClick getPageIndex dest p = (getPageIndex r, some (getPageIndex r)))
    ∧ (dest = none ∨ dest = some [] → pdfTreeOnClick getPageIndex dest p = (p, none)) := by
  constructor
  · rintro r rest rfl
    rfl
  · rintro (rfl | rfl) <;> rfl

/-- Witness for C7: a destination whose first ref resolves to page 13
navigates and scrolls to 13; a missing destination does nothing. -/
theorem C7_outline_click_navigation_witness :
    pdfTreeOnClick (fun r => r + 10) (some [3, 5]) 0 = (13, some 13)
    ∧ pdfTreeOnClick (fun r => r + 10) none 7 = (7, none) :=
  ⟨(C7_outline_click_navigation (fun r => r + 10) (some [3, 5]) 0).1 3 [5] rfl,
   (C7_outline_click_navigation (fun r => r + 10) none 7).2 (Or.inl rfl)⟩

/-! ## Claims about the renderer -/

/-- C5 (code bug): `renderText` guards its marking block with
`startPage == pageIndex || endIndex == pageIndex`, comparing the selection's
end glyph index — not its end page — against the page index. Page 1 is
touched by the selection (0, 5, 1, 7) (the selection ends there at glyph 7),
yet receives no marks; conversely page 1 is not touched by (0, 5, 3, 1), yet
all ten of its glyphs are marked because the end glyph index equals the page
index. -/
theorem C5_end_page_guard_bug :
    renderTextMarks (some (0, 5, 1, 7)) 1 10 = []
    ∧ renderTextMarks (some (0, 5, 3, 1)) 1 10 = List.range 10 := by
  constructor <;> decide

/-- C2 (code bug): the render-cancellation discipline has a gap. In the
trace below the page mounts visible and its `renderPage` invocation suspends
fetching the page handle; the scale then changes — the effect cleanup finds
no recorded task to cancel and the rerun effect starts a second `renderPage`
invocation, which also suspends on `getPage`; both fetches then resolve, and
each resumed invocation creates and records a render task. The run reports
`true`: the second render task began while the first was still in flight and
was never cancelled (both tasks end uncancelled and uncompleted). -/
theorem C2_uncancelled_render_overlap :
    renderRun initialRenderState
      [RenderStep.effect true, RenderStep.effect true,
       RenderStep.resumeFetch, RenderStep.resumeFetch]
    = some ({ pageCached := true, recordedTask := some 1, pendingFetches := 0,
              tasks := [⟨false, false⟩, ⟨false, false⟩], visible := true }, true) := by
  rfl

/-! ## URL fragment state (hash encode in `AppContainer`, decode in `App`)

The hash round trip composes four platform functions:
`btoa(JSON.stringify(...))` on encode and `JSON.parse(atob(hash))` on
decode. They are modelled here on lists of UTF-16 code units, restricted to
the JSON value subset the viewer produces: non-negative integer numbers,
strings and arrays, in compact form (`JSON.stringify` emits no whitespace,
and `JSON.parse` is modelled on that compact grammar). -/

/-- The base64 alphabet: sextet value to character code. -/
def b64char (n : Nat) : Nat :=
  if n < 26 then 65 + n
  else if n < 52 then 97 + (n - 26)
  else if n < 62 then 48 + (n - 52)
  else if n = 62 then 43
  else 47

/-- Character code to sextet value, `none` for a non-alphabet character. -/
def b64value (c : Nat) : Option Nat :=
  if 65 ≤ c ∧ c ≤ 90 then some (c - 65)
  else if 97 ≤ c ∧ c ≤ 122 then some (c - 97 + 26)
  else if 48 ≤ c ∧ c ≤ 57 then some (c - 48 + 52)
  else if c = 43 then some 62
  else if c = 47 then some 63
  else none

/-- Base64-encode a byte list, three bytes to four characters, padding with
`=` (code 61). -/
def btoaBytes : List Nat → List Nat
  | [] => []
  | [a] => [b64char (a / 4), b64char (a % 4 * 16), 61, 61]
  | [a, b] => [b64char (a / 4), b64char (a % 4 * 16 + b / 16), b64char (b % 16 * 4), 61]
  | a :: b :: c :: rest =>
    b64char (a / 4) :: b64char (a % 4 * 16 + b / 16) ::
      b64char (b % 16 * 4 + c / 64) :: b64char (c % 64) :: btoaBytes rest

/-- Base64-decode to a byte list; `none` on a malformed input. -/
def atobBytes : List Nat → Option (List Nat)
  | [] => some []
  | c1 :: c2 :: c3 :: c4 :: rest =>
    (b64value c1).bind fun v1 =>
    (b64value c2).bind fun v2 =>
      if c3 = 61 ∧ c4 = 61 ∧ rest = [] then
        some [v1 * 4 + v2 / 16]
      else if c4 = 61 ∧ rest = [] then
        (b64value c3).bind fun v3 =>
          some [v1 * 4 + v2 / 16, v2 % 16 * 16 + v3 / 4]
      else
        (b64value c3).bind fun v3 =>
        (b64value c4).bind fun v4 =>
        (atobBytes rest).bind fun tail =>
          some ((v1 * 4 + v2 / 16) :: (v2 % 16 * 16 + v3 / 4) :: (v3 % 4 * 64 + v4) :: tail)
  | _ => none

/-- `window.btoa` on a list of code units: fails (throws
`InvalidCharacterError`) when some code unit is above 255, otherwise
base64-encodes the units as bytes. -/
def btoa (s : List Nat) : Option (List Nat) :=
  if s.all (fun c => decide (c < 256)) then some (btoaBytes s) else none

/-- `window.atob` on a list of code units. -/
def atob (s : List Nat) : Option (List Nat) :=
  atobBytes s

/-- The JSON value subset appearing in the viewer's hash state:
non-negative integer numbers, strings and arrays. -/
inductive JValue
  | num (n : Nat)
  | str (s : List Nat)
  | arr (xs : List JValue)

/-- Decimal digit characters of `n`, most significant first, accumulated
onto `acc`; the fuel bounds the recursion and any fuel `≥ n` is enough. -/
def natDigitsAux : Nat → Nat → List Nat → List Nat
  | 0, _, acc => acc
  | fuel + 1, n, acc =>
    if n = 0 then acc else natDigitsAux fuel (n / 10) ((48 + n % 10) :: acc)

/-- Decimal representation of `n` as character codes (`JSON.stringify` of a
non-negative integer). -/
def natDigits (n : Nat) : List Nat :=
  if n = 0 then [48] else natDigitsAux n n []

/-- One lowercase hex digit character, for `\u00XX` escapes. -/
def hexDigit (n : Nat) : Nat :=
  if n < 10 then 48 + n else 97 + (n - 10)

/-- `JSON.stringify` escaping of one string code unit: quote and backslash
are escaped, the named control escapes are used for 8, 9, 10, 12 and 13,
any other code unit below 32 becomes `\u00XX`, and everything else is
emitted verbatim. -/
def escapeCodeUnit (c : Nat) : List Nat :=
  if c = 34 then [92, 34]
  else if c = 92 then [92, 92]
  else if c = 8 then [92, 98]
  else if c = 9 then [92, 116]
  else if c = 10 then [92, 110]
  else if c = 12 then [92, 102]
  else if c = 13 then [92, 114]
  else if c < 32 then [92, 117, 48, 48, hexDigit (c / 16), hexDigit (c % 16)]
  else [c]

/-- `JSON.stringify` body of a string literal. -/
def escapeString (s : List Nat) : List Nat :=
  (s.map escapeCodeUnit).flatten

mutual
/-- `JSON.stringify` on the modelled JSON subset (compact form, exactly as
the browser emits it: no whitespace). -/
def stringify : JValue → List Nat
  | JValue.num n => natDigits n
  | JValue.str s => 34 :: (escapeString s ++ [34])
  | JValue.arr xs => 91 :: (stringifyList xs ++ [93])

/-- Comma-separated stringification of the elements of an array. -/
def stringifyList : List JValue → List Nat
  | [] => []
  | [x] => stringify x
  | x :: y :: rest => stringify x ++ (44 :: stringifyList (y :: rest))
end

/-- Parse a run of decimal digits left to right onto the accumulator,
stopping at the first non-digit. -/
def parseNatAux : List Nat → Nat → Nat × List Nat
  | [], acc => (acc, [])
  | c :: cs, acc =>
    if 48 ≤ c ∧ c ≤ 57 then parseNatAux cs (acc * 10 + (c - 48)) else (acc, c :: cs)

/-- Parse a JSON number, restricted to the non-negative integers the viewer
produces. -/
def parseNumber (s : List Nat) : Option (Nat × List Nat) :=
  match s with
  | [] => none
  | c :: cs => if 48 ≤ c ∧ c ≤ 57 then some (parseNatAux (c :: cs) 0) else none

/-- Hex digit character to value. -/
def hexValue (c : Nat) : Option Nat :=
  if 48 ≤ c ∧ c ≤ 57 then some (c - 48)
  else if 97 ≤ c ∧ c ≤ 102 then some (c - 97 + 10)
  else if 65 ≤ c ∧ c ≤ 70 then some (c - 65 + 10)
  else none

/-- Read one string item: `some (none, rest)` at the closing quote,
`some (some u, rest)` for one (possibly escaped) code unit, `none` on a bad
escape or a raw control character. -/
def parseStrChar (s : List Nat) : Option (Option Nat × List Nat) :=
  match s with
  | [] => none
  | c :: cs =>
    if c = 34 then some (none, cs)
    else if c = 92 then
      match cs with
      | [] => none
      | e :: cs2 =>
        if e = 34 then some (some 34, cs2)
        else if e = 92 then some (some 92, cs2)
        else if e = 47 then some (some 47, cs2)
        else if e = 98 then some (some 8, cs2)
        else if e = 102 then some (some 12, cs2)
        else if e = 110 then some (some 10, cs2)
        else if e = 114 then some (some 13, cs2)
        else if e = 116 then some (some 9, cs2)
        else if e = 117 then
          match cs2 with
          | h1 :: h2 :: h3 :: h4 :: cs3 =>
            (hexValue h1).bind fun v1 =>
            (hexValue h2).bind fun v2 =>
            (hexValue h3).bind fun v3 =>
            (hexValue h4).bind fun v4 =>
              some (some (v1 * 4096 + v2 * 256 + v3 * 16 + v4), cs3)
          | _ => none
        else none
    else if c < 32 then none
    else some (some c, cs)

/-- Parse a string literal body up to and including the closing quote,
returning the decoded code units and the remaining input. -/
def parseStringBody : Nat → List Nat → Option (List Nat × List Nat)
  | 0, _ => none
  | fuel + 1, s =>
    match parseStrChar s with
    | none => none
    | some (none, rest) => some ([], rest)
    | some (some u, rest) =>
      match parseStringBody fuel rest with
      | some (tail, r) => some (u :: tail, r)
      | none => none

mutual
/-- Recursive-descent `JSON.parse` on the modelled compact subset; the fuel
bounds the recursion depth and any fuel above the input length is enough. -/
def parseValue : Nat → List Nat → Option (JValue × List Nat)
  | 0, _ => none
  | fuel + 1, s =>
    match s with
    | [] => none
    | c :: cs =>
      if c = 34 then
        match parseStringBody (cs.length + 1) cs with
        | some (t, rest) => some (JValue.str t, rest)
        | none => none
      else if c = 91 then
        if cs.headD 0 = 93 then some (JValue.arr [], cs.tail)
        else
          match parseElems fuel cs with
          | some (xs, rest) => some (JValue.arr xs, rest)
          | none => none
      else
        match parseNumber (c :: cs) with
        | some (n, rest) => some (JValue.num n, rest)
        | none => none

/-- Parse one or more comma-separated array elements followed by the
closing bracket. -/
def parseElems : Nat → List Nat → Option (List JValue × List Nat)
  | 0, _ => none
  | fuel + 1, s =>
    match parseValue fuel s with
    | none => none
    | some (v, rest) =>
      match rest with
      | 44 :: rest2 =>
        match parseElems fuel rest2 with
        | some (xs, rest3) => some (v :: xs, rest3)
        | none => none
      | 93 :: rest2 => some ([v], rest2)
      | _ => none
end

/-- `JSON.parse`, requiring the whole input to be consumed. -/
def parseJSON (s : List Nat) : Option JValue :=
  match parseValue (s.length + 1) s with
  | some (v, []) => some v
  | _ => none

/-- The JSON array the viewer stores for a selection 4-tuple. -/
def selectionJValue (sel : Nat × Nat × Nat × Nat) : JValue :=
  JValue.arr [JValue.num sel.1, JValue.num sel.2.1, JValue.num sel.2.2.1,
    JValue.num sel.2.2.2]

/-- The JSON array `[0, documentName, pageIndex]`, or
`[0, documentName, pageIndex, selection]` when a selection is stored, built
by the hash effect of `AppContainer`. -/
def hashStateJValue (documentName : List Nat) (pageIndex : Nat)
    (selection : Option (Nat × Nat × Nat × Nat)) : JValue :=
  match selection with
  | some sel =>
    JValue.arr [JValue.num 0, JValue.str documentName, JValue.num pageIndex,
      selectionJValue sel]
  | none =>
    JValue.arr [JValue.num 0, JValue.str documentName, JValue.num pageIndex]

/-- The `location.hash` encoding in `AppContainer`:
`btoa(JSON.stringify(selection ? [0, documentName, pageIndex, selection] : [0, documentName, pageIndex]))`.
`none` models `btoa` throwing on a code unit above 255 (the effect then sets
no fragment). -/
def encodeHash (documentName : List Nat) (pageIndex : Nat)
    (selection : Option (Nat × Nat × Nat × Nat)) : Option (List Nat) :=
  btoa (stringify (hashStateJValue documentName pageIndex selection))

/-- The hash decoding in `App`: `JSON.parse(atob(hash))` destructured as
`[version, documentName, pageIndex, selection]`. `none` models the `catch`
branch (defaults are then used); a parse result that is not an array throws
on array destructuring (the string-iterability corner case never arises on
encoder output). -/
def decodeHash (hash : List Nat) :
    Option (Option JValue × Option JValue × Option JValue × Option JValue) :=
  match atob hash with
  | none => none
  | some s =>
    match parseJSON s with
    | some (JValue.arr l) => some (l.get? 0, l.get? 1, l.get? 2, l.get? 3)
    | _ => none

/-! ## Round-trip lemmas for the hash encoding -/

theorem b64value_b64char : ∀ n, n < 64 → b64value (b64char n) = some n := by decide

theorem b64char_ne_61 : ∀ n, n < 64 → b64char n ≠ 61 := by decide

theorem atobBytes_btoaBytes : ∀ bs : List Nat, (∀ b ∈ bs, b < 256) →
    atobBytes (btoaBytes bs) = some bs
  | [], _ => rfl
  | [a], h => by
    have ha : a < 256 := h a (by simp)
    have e1 := b64value_b64char (a / 4) (by omega)
    have e2 := b64value_b64char (a % 4 * 16) (by omega)
    simp only [btoaBytes, atobBytes]
    simp [e1, e2]
    omega
  | [a, b], h => by
    have ha : a < 256 := h a (by simp)
    have hb : b < 256 := h b (by simp)
    have e1 := b64value_b64char (a / 4) (by omega)
    have e2 := b64value_b64char (a % 4 * 16 + b / 16) (by omega)
    have e3 := b64value_b64char (b % 16 * 4) (by omega)
    have hne : b64char (b % 16 * 4) ≠ 61 := b64char_ne_61 _ (by omega)
    simp only [btoaBytes, atobBytes]
    simp [e1, e2, e3, hne]
    omega
  | a :: b :: c :: rest, h => by
    have ha : a < 256 := h a (by simp)
    have hb : b < 256 := h b (by simp)
    have hc : c < 256 := h c (by simp)
    have ih := atobBytes_btoaBytes rest (fun x hx => h x (by simp [hx]))
    have e1 := b64value_b64char (a / 4) (by omega)
    have e2 := b64value_b64char (a % 4 * 16 + b / 16) (by omega)
    have e3 := b64value_b64char (b % 16 * 4 + c / 64) (by omega)
    have e4 := b64value_b64char (c % 64) (by omega)
    have hne3 : b64char (b % 16 * 4 + c / 64) ≠ 61 := b64char_ne_61 _ (by omega)
    have hne4 : b64char (c % 64) ≠ 61 := b64char_ne_61 _ (by omega)
    simp only [btoaBytes, atobBytes]
    simp [e1, e2, e3, e4, hne3, hne4, ih]
    omega

/-- Head shape a parser continuation must avoid so that maximal-munch number
parsing stops exactly at the boundary. -/
def noDigitHead : List Nat → Prop
  | [] => True
  | c :: _ => ¬(48 ≤ c ∧ c ≤ 57)

theorem natDigitsAux_spec : ∀ fuel n acc, n ≤ fuel →
    ∃ ds, natDigitsAux fuel n acc = ds ++ acc
      ∧ (n ≠ 0 → ds ≠ [])
      ∧ (∀ d ∈ ds, 48 ≤ d ∧ d ≤ 57)
      ∧ ∀ a, ds.foldl (fun x d => x * 10 + (d - 48)) a = a * 10 ^ ds.length + n := by
  intro fuel
  induction fuel with
  | zero =>
    intro n acc hn
    refine ⟨[], rfl, fun hne => absurd (by omega) hne, by simp, fun a => by simp; omega⟩
  | succ fuel ih =>
    intro n acc hn
    by_cases h0 : n = 0
    · subst h0
      refine ⟨[], by simp [natDigitsAux], fun hne => absurd rfl hne, by simp, fun a => by simp⟩
    · have hrec : n / 10 ≤ fuel := by omega
      obtain ⟨ds, hds, _, hdig, hfold⟩ := ih (n / 10) ((48 + n % 10) :: acc) hrec
      refine ⟨ds ++ [48 + n % 10], ?_, fun _ => by simp, ?_, ?_⟩
      · simp only [natDigitsAux, if_neg h0]
        rw [hds]
        simp
      · intro d hd
        rcases List.mem_append.mp hd with h1 | h2
        · exact hdig d h1
        · simp at h2
          omega
      · intro a
        rw [List.foldl_append]
        simp only [List.foldl_cons, List.foldl_nil]
        rw [hfold a]
        have h1 : 48 + n % 10 - 48 = n % 10 := by omega
        rw [h1, List.length_append]
        simp only [List.length_singleton]
        rw [pow_succ, add_mul]
        have h2 : n / 10 * 10 + n % 10 = n := by omega
        rw [← mul_assoc]
        omega

theorem natDigits_spec (n : Nat) :
    natDigits n ≠ []
    ∧ (∀ d ∈ natDigits n, 48 ≤ d ∧ d ≤ 57)
    ∧ (natDigits n).foldl (fun x d => x * 10 + (d - 48)) 0 = n := by
  by_cases h0 : n = 0
  · subst h0
    refine ⟨by simp [natDigits], ?_, by simp [natDigits]⟩
    intro d hd
    simp [natDigits] at hd
    omega
  · obtain ⟨ds, hds, hne, hdig, hfold⟩ := natDigitsAux_spec n n [] le_rfl
    rw [List.append_nil] at hds
    have hd : natDigits n = ds := by
      simp only [natDigits, if_neg h0]
      exact hds
    rw [hd]
    refine ⟨hne h0, hdig, ?_⟩
    rw [hfold 0]
    simp

theorem parseNatAux_append : ∀ ds rest acc, (∀ d ∈ ds, 48 ≤ d ∧ d ≤ 57) →
    noDigitHead rest →
    parseNatAux (ds ++ rest) acc = (ds.foldl (fun x d => x * 10 + (d - 48)) acc, rest)
  | [], rest, acc, _, hrest => by
    cases rest with
    | nil => rfl
    | cons r rs =>
      simp only [List.nil_append, List.foldl_nil, parseNatAux]
      rw [if_neg hrest]
  | d :: ds, rest, acc, hdig, hrest => by
    have hd : 48 ≤ d ∧ d ≤ 57 := hdig d (by simp)
    simp only [List.cons_append, parseNatAux, if_pos hd, List.foldl_cons]
    exact parseNatAux_append ds rest (acc * 10 + (d - 48)) (fun x hx => hdig x (by simp [hx])) hrest

theorem parseNumber_natDigits (n : Nat) (rest : List Nat) (hrest : noDigitHead rest) :
    parseNumber (natDigits n ++ rest) = some (n, rest) := by
  obtain ⟨hne, hdig, hfold⟩ := natDigits_spec n
  obtain ⟨d, ds, hds⟩ : ∃ d ds, natDigits n = d :: ds := by
    cases hnd : natDigits n with
    | nil => exact absurd hnd hne
    | cons d ds => exact ⟨d, ds, rfl⟩
  have hd : 48 ≤ d ∧ d ≤ 57 := hdig d (by rw [hds]; simp)
  rw [hds, List.cons_append]
  simp only [parseNumber, if_pos hd]
  rw [← List.cons_append, ← hds]
  rw [parseNatAux_append (natDigits n) rest 0 hdig hrest]
  rw [hfold]

theorem hexValue_hexDigit : ∀ n, n < 16 → hexValue (hexDigit n) = some n := by decide

theorem parseStrChar_escape (c : Nat) (rest : List Nat) :
    parseStrChar (escapeCodeUnit c ++ rest) = some (some c, rest) := by
  by_cases h34 : c = 34
  · subst h34
    simp [escapeCodeUnit, parseStrChar]
  by_cases h92 : c = 92
  · subst h92
    simp [escapeCodeUnit, parseStrChar]
  by_cases h8 : c = 8
  · subst h8
    simp [escapeCodeUnit, parseStrChar]
  by_cases h9 : c = 9
  · subst h9
    simp [escapeCodeUnit, parseStrChar]
  by_cases h10 : c = 10
  · subst h10
    simp [escapeCodeUnit, parseStrChar]
  by_cases h12 : c = 12
  · subst h12
    simp [escapeCodeUnit, parseStrChar]
  by_cases h13 : c = 13
  · subst h13
    simp [escapeCodeUnit, parseStrChar]
  by_cases hctl : c < 32
  · have e1 := hexValue_hexDigit (c / 16) (by omega)
    have e2 := hexValue_hexDigit (c % 16) (by omega)
    have e48 : hexValue 48 = some 0 := rfl
    simp [escapeCodeUnit, parseStrChar, h34, h92, h8, h9, h10, h12, h13, hctl, e48, e1, e2]
    omega
  · simp [escapeCodeUnit, parseStrChar, h34, h92, h8, h9, h10, h12, h13, hctl]

theorem length_le_escapeString : ∀ s : List Nat, s.length ≤ (escapeString s).length := by
  intro s
  induction s with
  | nil => simp [escapeString]
  | cons c s ih =>
    have hlen : 1 ≤ (escapeCodeUnit c).length := by
      unfold escapeCodeUnit
      split_ifs <;> simp
    simp only [escapeString, List.map_cons, List.flatten_cons, List.length_append,
      List.length_cons]
    simp only [escapeString] at ih
    omega

theorem parseStringBody_escape : ∀ (s : List Nat) (fuel : Nat) (rest : List Nat),
    s.length < fuel →
    parseStringBody fuel (escapeString s ++ (34 :: rest)) = some (s, rest)
  | [], fuel, rest, hf => by
    obtain ⟨f, rfl⟩ : ∃ f, fuel = f + 1 := ⟨fuel - 1, by omega⟩
    simp [escapeString, parseStringBody, parseStrChar]
  | c :: s, fuel, rest, hf => by
    obtain ⟨f, rfl⟩ : ∃ f, fuel = f + 1 := ⟨fuel - 1, by omega⟩
    have hesc : escapeString (c :: s) ++ (34 :: rest)
        = escapeCodeUnit c ++ (escapeString s ++ (34 :: rest)) := by
      simp [escapeString]
    rw [hesc]
    simp only [parseStringBody]
    rw [parseStrChar_escape]
    have hlen : s.length < f := by
      simp only [List.length_cons] at hf
      omega
    have ih := parseStringBody_escape s f rest hlen
    simp [ih]

theorem stringify_head : ∀ v : JValue, ∃ hd t, stringify v = hd :: t ∧ hd ≠ 93 := by
  intro v
  cases v with
  | num n =>
    obtain ⟨hne, hdig, _⟩ := natDigits_spec n
    cases hnd : natDigits n with
    | nil => exact absurd hnd hne
    | cons d ds =>
      refine ⟨d, ds, by simp [stringify, hnd], ?_⟩
      have := hdig d (by rw [hnd]; simp)
      omega
  | str s => exact ⟨34, escapeString s ++ [34], by simp [stringify], by omega⟩
  | arr xs => exact ⟨91, stringifyList xs ++ [93], by simp [stringify], by omega⟩

theorem stringify_length_pos (v : JValue) : 1 ≤ (stringify v).length := by
  obtain ⟨hd, t, hv, _⟩ := stringify_head v
  rw [hv]
  simp

theorem stringifyList_cons_head (x : JValue) (t : List JValue) :
    ∃ hd tl, stringifyList (x :: t) = hd :: tl ∧ hd ≠ 93 := by
  obtain ⟨hd, tl0, hx, hne⟩ := stringify_head x
  cases t with
  | nil => exact ⟨hd, tl0, by simp [stringifyList, hx], hne⟩
  | cons y t2 =>
    refine ⟨hd, tl0 ++ (44 :: stringifyList (y :: t2)), ?_, hne⟩
    simp [stringifyList, hx]

theorem parseValue_stringify_fuel : ∀ fuel : Nat,
    (∀ v rest, (stringify v).length < fuel → noDigitHead rest →
      parseValue fuel (stringify v ++ rest) = some (v, rest))
    ∧ (∀ xs rest, xs ≠ [] → (stringifyList xs).length + 1 < fuel →
      parseElems fuel (stringifyList xs ++ (93 :: rest)) = some (xs, rest)) := by
  intro fuel
  induction fuel with
  | zero =>
    exact ⟨fun v rest h => absurd h (by omega), fun xs rest _ h => absurd h (by omega)⟩
  | succ fuel ih =>
    constructor
    · intro v rest hlen hnd
      cases v with
      | num n =>
        obtain ⟨hne, hdig, _⟩ := natDigits_spec n
        obtain ⟨d, ds, hds⟩ : ∃ d ds, natDigits n = d :: ds := by
          cases hnd2 : natDigits n with
          | nil => exact absurd hnd2 hne
          | cons d ds => exact ⟨d, ds, rfl⟩
        have hd : 48 ≤ d ∧ d ≤ 57 := hdig d (by rw [hds]; simp)
        have hnum := parseNumber_natDigits n rest hnd
        have hs : stringify (JValue.num n) = natDigits n := rfl
        rw [hs, hds, List.cons_append]
        simp only [parseValue]
        rw [if_neg (show ¬d = 34 by omega), if_neg (show ¬d = 91 by omega)]
        rw [← List.cons_append, ← hds, hnum]
      | str s =>
        have hs : stringify (JValue.str s) = 34 :: (escapeString s ++ [34]) := rfl
        rw [hs, List.cons_append]
        simp only [parseValue]
        simp only [if_true]
        have harr : (escapeString s ++ [34]) ++ rest = escapeString s ++ (34 :: rest) := by
          simp
        rw [harr]
        have hlen2 : s.length < (escapeString s ++ (34 :: rest)).length + 1 := by
          have := length_le_escapeString s
          simp only [List.length_append, List.length_cons]
          omega
        rw [parseStringBody_escape s _ rest hlen2]
      | arr xs =>
        cases xs with
        | nil =>
          have hs : stringify (JValue.arr []) = [91, 93] := rfl
          rw [hs]
          have hc : ([91, 93] : List Nat) ++ rest = 91 :: 93 :: rest := rfl
          rw [hc]
          simp only [parseValue]
          simp
        | cons x t =>
          have hs : stringify (JValue.arr (x :: t)) = 91 :: (stringifyList (x :: t) ++ [93]) := rfl
          have hlen2 : (stringifyList (x :: t)).length + 1 < fuel := by
            rw [hs] at hlen
            simp only [List.length_cons, List.length_append, List.length_singleton] at hlen
            omega
          rw [hs, List.cons_append]
          simp only [parseValue]
          simp only [if_true]
          obtain ⟨hd, tl, hsl, hdne⟩ := stringifyList_cons_head x t
          have harr : (stringifyList (x :: t) ++ [93]) ++ rest
              = stringifyList (x :: t) ++ (93 :: rest) := by simp
          rw [harr, hsl, List.cons_append]
          simp only [List.headD_cons]
          rw [if_neg hdne]
          rw [← List.cons_append, ← hsl]
          rw [ih.2 (x :: t) rest (by simp) hlen2]
          simp
    · intro xs rest hne hlen
      cases xs with
      | nil => exact absurd rfl hne
      | cons x t =>
        cases t with
        | nil =>
          have hsl : stringifyList [x] = stringify x := rfl
          have hlen2 : (stringify x).length < fuel := by
            rw [hsl] at hlen
            omega
          rw [hsl]
          simp only [parseElems]
          rw [ih.1 x (93 :: rest) hlen2 (by simp [noDigitHead])]
        | cons y t2 =>
          have hsl : stringifyList (x :: y :: t2)
              = stringify x ++ (44 :: stringifyList (y :: t2)) := rfl
          have hx1 : 1 ≤ (stringify x).length := stringify_length_pos x
          have hlx : (stringify x).length < fuel := by
            rw [hsl] at hlen
            simp only [List.length_append, List.length_cons] at hlen
            omega
          have hly : (stringifyList (y :: t2)).length + 1 < fuel := by
            rw [hsl] at hlen
            simp only [List.length_append, List.length_cons] at hlen
            omega
          have harr : stringifyList (x :: y :: t2) ++ (93 :: rest)
              = stringify x ++ (44 :: (stringifyList (y :: t2) ++ (93 :: rest))) := by
            rw [hsl]
            simp
          rw [harr]
          simp only [parseElems]
          rw [ih.1 x _ hlx (by simp [noDigitHead])]
          simp [ih.2 (y :: t2) rest (by simp) hly]

theorem parseJSON_stringify (v : JValue) : parseJSON (stringify v) = some v := by
  unfold parseJSON
  have h := (parseValue_stringify_fuel ((stringify v).length + 1)).1 v []
    (by omega) (by simp [noDigitHead])
  rw [List.append_nil] at h
  rw [h]

theorem natDigits_units (n : Nat) : ∀ d ∈ natDigits n, d < 256 := by
  obtain ⟨_, hdig, _⟩ := natDigits_spec n
  intro d hd
  have := hdig d hd
  omega

theorem escapeCodeUnit_units (c : Nat) (hc : c < 256) : ∀ u ∈ escapeCodeUnit c, u < 256 := by
  intro u hu
  have h1 : hexDigit (c / 16) < 256 := by
    unfold hexDigit
    split_ifs <;> omega
  have h2 : hexDigit (c % 16) < 256 := by
    unfold hexDigit
    split_ifs <;> omega
  unfold escapeCodeUnit at hu
  split_ifs at hu <;> simp at hu <;> omega

theorem escapeString_units (s : List Nat) (hs : ∀ c ∈ s, c < 256) :
    ∀ u ∈ escapeString s, u < 256 := by
  intro u hu
  simp only [escapeString, List.mem_flatten, List.mem_map] at hu
  obtain ⟨l, ⟨c, hc, rfl⟩, hul⟩ := hu
  exact escapeCodeUnit_units c (hs c hc) u hul

theorem stringify_str_units (name : List Nat) (hname : ∀ c ∈ name, c < 256) :
    ∀ u ∈ stringify (JValue.str name), u < 256 := by
  intro u hu
  rw [show stringify (JValue.str name) = 34 :: (escapeString name ++ [34]) from rfl] at hu
  simp only [List.mem_cons, List.mem_append, List.mem_singleton, List.mem_nil_iff, or_false] at hu
  rcases hu with rfl | h | rfl
  · omega
  · exact escapeString_units name hname u h
  · omega

theorem selectionJValue_units (sel : Nat × Nat × Nat × Nat) :
    ∀ u ∈ stringify (selectionJValue sel), u < 256 := by
  obtain ⟨a, b, c, d⟩ := sel
  intro u hu
  have hshape : stringify (selectionJValue (a, b, c, d))
      = 91 :: ((natDigits a ++ (44 :: (natDigits b ++ (44 :: (natDigits c ++ (44 :: natDigits d)))))) ++ [93]) := rfl
  rw [hshape] at hu
  simp only [List.mem_cons, List.mem_append, List.mem_singleton, List.mem_nil_iff, or_false] at hu
  rcases hu with rfl | (h1 | rfl | h2 | rfl | h3 | rfl | h4) | rfl
  · omega
  · exact natDigits_units a u h1
  · omega
  · exact natDigits_units b u h2
  · omega
  · exact natDigits_units c u h3
  · omega
  · exact natDigits_units d u h4
  · omega

theorem stringify_hashState_units (name : List Nat) (p : Nat)
    (sel : Option (Nat × Nat × Nat × Nat)) (hname : ∀ c ∈ name, c < 256) :
    ∀ u ∈ stringify (hashStateJValue name p sel), u < 256 := by
  cases sel with
  | none =>
    intro u hu
    have hshape : stringify (hashStateJValue name p none)
        = 91 :: ((natDigits 0 ++ (44 :: (stringify (JValue.str name) ++ (44 :: natDigits p)))) ++ [93]) := rfl
    rw [hshape] at hu
    simp only [List.mem_cons, List.mem_append, List.mem_singleton, List.mem_nil_iff, or_false] at hu
    rcases hu with rfl | (h1 | rfl | h2 | rfl | h3) | rfl
    · omega
    · exact natDigits_units 0 u h1
    · omega
    · exact stringify_str_units name hname u h2
    · omega
    · exact natDigits_units p u h3
    · omega
  | some s4 =>
    intro u hu
    have hshape : stringify (hashStateJValue name p (some s4))
        = 91 :: ((natDigits 0 ++ (44 :: (stringify (JValue.str name) ++ (44 :: (natDigits p ++ (44 :: stringify (selectionJValue s4))))))) ++ [93]) := rfl
    rw [hshape] at hu
    simp only [List.mem_cons, List.mem_append, List.mem_singleton, List.mem_nil_iff, or_false] at hu
    rcases hu with rfl | (h1 | rfl | h2 | rfl | h3 | rfl | h4) | rfl
    · omega
    · exact natDigits_units 0 u h1
    · omega
    · exact stringify_str_units name hname u h2
    · omega
    · exact natDigits_units p u h3
    · omega
    · exact selectionJValue_units s4 u h4
    · omega

/-- C3 (amended): for every view state whose document name has only
non-control Latin-1 code units (32 ≤ c < 256), any page index and any
selection (absent or a 4-tuple of non-negative integers), encoding the state
into the URL fragment succeeds and decoding the fragment yields the original
tuple `[0, documentName, pageIndex, selection?]`. -/
theorem C3_hash_roundtrip (name : List Nat) (p : Nat) (sel : Option (Nat × Nat × Nat × Nat))
    (hname : ∀ c ∈ name, 32 ≤ c ∧ c < 256) :
    ∃ h, encodeHash name p sel = some h
      ∧ decodeHash h = some (some (JValue.num 0), some (JValue.str name), some (JValue.num p),
          sel.map selectionJValue) := by
  have hunits := stringify_hashState_units name p sel (fun c hc => (hname c hc).2)
  have hall : (stringify (hashStateJValue name p sel)).all (fun c => decide (c < 256)) = true := by
    rw [List.all_eq_true]
    intro c hc
    simpa using hunits c hc
  refine ⟨btoaBytes (stringify (hashStateJValue name p sel)), ?_, ?_⟩
  · unfold encodeHash btoa
    rw [if_pos hall]
  · unfold decodeHash atob
    rw [atobBytes_btoaBytes _ hunits]
    cases sel with
    | none =>
      have hJ : hashStateJValue name p none
          = JValue.arr [JValue.num 0, JValue.str name, JValue.num p] := rfl
      rw [hJ]
      simp [parseJSON_stringify]
    | some s4 =>
      have hJ : hashStateJValue name p (some s4)
          = JValue.arr [JValue.num 0, JValue.str name, JValue.num p, selectionJValue s4] := rfl
      rw [hJ]
      simp [parseJSON_stringify]

/-- C3 counterexample to the claim as stated: the document name consisting of
the single code unit 20013 (U+4E2D, a CJK character) contains no control
character, yet encoding its view state produces no fragment at all — `btoa`
throws on any code unit above 255 — so no decoding can return the original
tuple. -/
theorem C3_latin1_counterexample :
    (∀ c ∈ [20013], ¬ c < 32)
    ∧ ¬ ∃ h, encodeHash [20013] 0 none = some h := by
  constructor
  · intro c hc
    simp at hc
    omega
  · rintro ⟨h, hh⟩
    have henc : encodeHash [20013] 0 none = none := rfl
    rw [henc] at hh
    cases hh

/-- Witness for C3 at the concrete state `("a.pdf", 3, (2, 10, 3, 15))`. -/
theorem C3_hash_roundtrip_witness :
    ∃ h, encodeHash [97, 46, 112, 100, 102] 3 (some (2, 10, 3, 15)) = some h
      ∧ decodeHash h = some (some (JValue.num 0), some (JValue.str [97, 46, 112, 100, 102]),
          some (JValue.num 3), some (selectionJValue (2, 10, 3, 15))) :=
  C3_hash_roundtrip [97, 46, 112, 100, 102] 3 (some (2, 10, 3, 15)) (by decide)
